import Mathlib

/-!
Verification development for the AGV fault reporter application
(single source file: agv_fault_reporter/app.py).

Strings are modelled as lists of Unicode characters (Lean Char), so the
CJK labels and values of the source appear literally.  All definitions
are shallow embeddings of the corresponding Python code; each definition
carries a comment naming the source construct it embeds.
-/

namespace AgvFault

/-! ## Character classes -/

/-- Whitespace as matched by Python regular-expression class backslash-s and
stripped by str.strip in text mode (Unicode whitespace). -/
def isPySpace (c : Char) : Bool :=
  let n := c.toNat
  (9 ≤ n && n ≤ 13) || (28 ≤ n && n ≤ 31) || n = 32 || n = 133 || n = 160 ||
    n = 0x1680 || (0x2000 ≤ n && n ≤ 0x200a) || n = 0x2028 || n = 0x2029 ||
    n = 0x202f || n = 0x205f || n = 0x3000

/-- Characters retained by the cleaning regex of parse_fault_text:
the complement of the character class in
re.compile of a negated class of CJK u4e00-u9fa5, a-z, A-Z, 0-9,
whitespace and the at-sign (app.py line 61). -/
def allowedChar (c : Char) : Bool :=
  ('一' ≤ c && c ≤ '龥') || ('a' ≤ c && c ≤ 'z') ||
    ('A' ≤ c && c ≤ 'Z') || ('0' ≤ c && c ≤ '9') || isPySpace c || c = '@'

/-! ## Generic list helpers used by the embedding -/

/-- Whether the first list is an initial segment of the second. -/
def isStartOf : List Char → List Char → Bool
  | [], _ => true
  | _ :: _, [] => false
  | a :: as, b :: bs => a = b && isStartOf as bs

/-- Remove an initial segment, returning the remainder on success. -/
def dropStart? : List Char → List Char → Option (List Char)
  | [], s => some s
  | _ :: _, [] => none
  | a :: as, b :: bs => if a = b then dropStart? as bs else none

/-- Substring test, embedding the Python operator in on strings. -/
def containsSub : List Char → List Char → Bool
  | n, [] => decide (n = [])
  | n, c :: t => isStartOf n (c :: t) || containsSub n t

theorem length_dropWhile_le {α : Type} (p : α → Bool) (l : List α) :
    (l.dropWhile p).length ≤ l.length := by
  induction l with
  | nil => simp [List.dropWhile]
  | cons a t ih =>
    by_cases h : p a
    · simp only [List.dropWhile_cons_of_pos h, List.length_cons]
      omega
    · simp [List.dropWhile_cons_of_neg h]

/-! ## The field extractor (parse_fault_text, app.py lines 47-48)

The source compiles the multiline regular expression anchored at line
starts that matches one of six labels, a half- or full-width colon, then
greedily skips whitespace and captures the rest of the line, and builds a
Python dict from findall.  The scanner below walks the text once,
attempting a label match at every line start, mirroring re.findall with
the MULTILINE flag: a pattern beginning with a caret can only match at
position zero or right after a newline, and scanning resumes at the end
of each match. -/

def reporterLabel : List Char := ['发', '现', '人', '员']
def timeLabel : List Char := ['时', '间']
def vehicleLabel : List Char := ['车', '辆', '信', '息']
def descriptionLabel : List Char := ['报', '警', '描', '述']
def solutionLabel : List Char := ['解', '决', '办', '法']
def responsibleLabel : List Char := ['责', '任', '人']

/-- The six label alternatives, in the order they appear in the pattern. -/
def labelStrings : List (List Char) :=
  [reporterLabel, timeLabel, vehicleLabel, descriptionLabel, solutionLabel,
    responsibleLabel]

/-- The colon character class of the pattern: ASCII or full-width colon. -/
def isColonChar (c : Char) : Bool := c = ':' || c = '：'

/-- Try to match one of the six labels followed by a colon at the head of
the remaining text, as the alternation in the source pattern does. -/
def tryLabel (s : List Char) : Option (List Char × List Char) :=
  labelStrings.findSome? fun lab =>
    match dropStart? lab s with
    | some (c :: rest) => if isColonChar c then some (lab, rest) else none
    | _ => none

/-- One left-to-right scan of the text, producing the list of
label-and-capture pairs that re.findall returns.  The fuel argument is an
upper bound on the number of scan steps; findallMatches supplies one
larger than the text length, which is always sufficient because every
step consumes at least one character. -/
def scanAux : Nat → Bool → List Char → List (List Char × List Char)
  | 0, _, _ => []
  | fuel + 1, atLineStart, s =>
    if atLineStart then
      match tryLabel s with
      | some (lab, rest) =>
        let afterWs := rest.dropWhile isPySpace
        let value := afterWs.takeWhile fun c => !decide (c = '\n')
        (lab, value) ::
          scanAux fuel false (afterWs.dropWhile fun c => !decide (c = '\n'))
      | none =>
        match s with
        | [] => []
        | c :: cs => scanAux fuel (decide (c = '\n')) cs
    else
      match s with
      | [] => []
      | c :: cs => scanAux fuel (decide (c = '\n')) cs

/-- All matches of the extraction pattern, in text order. -/
def findallMatches (s : List Char) : List (List Char × List Char) :=
  scanAux (s.length + 1) true s

/-! ## Python dict built from a pair list (dict of findall) -/

/-- One dict assignment: overwrite the entry when the key is present,
append otherwise. -/
def dictInsert (m : List (List Char × List Char)) (k v : List Char) :
    List (List Char × List Char) :=
  if m.any fun p => decide (p.1 = k) then
    m.map fun p => if p.1 = k then (k, v) else p
  else m ++ [(k, v)]

/-- The dict built from a list of pairs, later pairs overwriting earlier
ones, as the Python dict constructor does. -/
def dictOf (ps : List (List Char × List Char)) : List (List Char × List Char) :=
  ps.foldl (fun m p => dictInsert m p.1 p.2) []

/-- Lookup in the dict (matches.get). -/
def dictGet (m : List (List Char × List Char)) (k : List Char) :
    Option (List Char) :=
  (m.find? fun p => decide (p.1 = k)).map Prod.snd

/-- The value the extractor associates with a label, if any:
dict of pattern.findall, then get. -/
def extractedField (raw lab : List Char) : Option (List Char) :=
  dictGet (dictOf (findallMatches raw)) lab

/-- matches.get with the empty-string default used by the source. -/
def fieldOf (raw lab : List Char) : List Char := (extractedField raw lab).getD []

/-! ## Identity sanitization (app.py lines 61-66)

clean_pattern.sub replaces every maximal run of characters outside the
allowed class with one space; then str.strip trims surrounding
whitespace; then str.lstrip with argument at-sign removes every leading
at-sign character. -/

/-- Worker for the run-replacing substitution, structurally recursive on
a step budget so that it evaluates inside the kernel; the budget only
needs to dominate the input length, since every step consumes at least
one character. -/
def cleanSubAux : Nat → List Char → List Char
  | 0, _ => []
  | _ + 1, [] => []
  | fuel + 1, c :: cs =>
    if allowedChar c then c :: cleanSubAux fuel cs
    else ' ' :: cleanSubAux fuel (cs.dropWhile fun d => !allowedChar d)

/-- re.sub of one-or-more disallowed characters with a single space:
each maximal run of disallowed characters becomes one space. -/
def cleanSub (s : List Char) : List Char := cleanSubAux s.length s

theorem cleanSubAux_stable :
    ∀ (n m : Nat) (s : List Char), s.length ≤ n → s.length ≤ m →
      cleanSubAux n s = cleanSubAux m s := by
  intro n
  induction n with
  | zero =>
    intro m s hn hm
    have : s = [] := List.length_eq_zero.mp (Nat.le_zero.mp hn)
    subst this
    cases m <;> rfl
  | succ n ih =>
    intro m s hn hm
    cases s with
    | nil => cases m <;> rfl
    | cons c cs =>
      cases m with
      | zero => simp at hm
      | succ m' =>
        simp only [List.length_cons] at hn hm
        simp only [cleanSubAux]
        by_cases hc : allowedChar c
        · rw [if_pos hc, if_pos hc, ih m' cs (by omega) (by omega)]
        · have hd := length_dropWhile_le (fun d => !allowedChar d) cs
          rw [if_neg hc, if_neg hc,
            ih m' (cs.dropWhile fun d => !allowedChar d) (by omega) (by omega)]

theorem cleanSub_nil : cleanSub [] = [] := rfl

theorem cleanSub_cons (c : Char) (cs : List Char) :
    cleanSub (c :: cs) =
      if allowedChar c then c :: cleanSub cs
      else ' ' :: cleanSub (cs.dropWhile fun d => !allowedChar d) := by
  show cleanSubAux (cs.length + 1) (c :: cs) = _
  simp only [cleanSubAux]
  by_cases hc : allowedChar c
  · rw [if_pos hc, if_pos hc]
    rfl
  · have hd := length_dropWhile_le (fun d => !allowedChar d) cs
    rw [if_neg hc, if_neg hc,
      cleanSubAux_stable cs.length (cs.dropWhile fun d => !allowedChar d).length
        (cs.dropWhile fun d => !allowedChar d) (by omega) le_rfl]
    rfl

/-- Python str.strip: drop Unicode whitespace from both ends. -/
def pyStrip (s : List Char) : List Char :=
  ((s.dropWhile isPySpace).reverse.dropWhile isPySpace).reverse

/-- Python str.lstrip with the at-sign: drop every leading at-sign. -/
def dropLeadingAts (s : List Char) : List Char :=
  s.dropWhile fun c => decide (c = '@')

/-- The whole responsible-person sanitization pipeline of the source:
substitute runs, strip, remove leading at-signs. -/
def sanitizeResponsible (s : List Char) : List Char :=
  dropLeadingAts (pyStrip (cleanSub s))

/-! ## Timestamp parsing (app.py lines 70-75)

datetime.strptime with the fixed pattern year-CJK, month-CJK, day-CJK,
hour, colon, minute, after replacement of the full-width colon with the
ASCII one.
The strptime directives match exactly four digits for the year and one
or two digits for the other fields, the whole string must be consumed,
and the resulting calendar date must exist, otherwise the source catches
ValueError and stores None. -/

structure DateTime where
  year : Nat
  month : Nat
  day : Nat
  hour : Nat
  minute : Nat
deriving DecidableEq, Repr

def charDigit? (c : Char) : Option Nat :=
  if '0' ≤ c && c ≤ '9' then some (c.toNat - 48) else none

/-- Consume up to n leading digits, greedily. -/
def takeDigits : Nat → List Char → List Nat × List Char
  | 0, s => ([], s)
  | _ + 1, [] => ([], [])
  | n + 1, c :: cs =>
    match charDigit? c with
    | some d =>
      let r := takeDigits n cs
      (d :: r.1, r.2)
    | none => ([], c :: cs)

def digitsVal (ds : List Nat) : Nat := ds.foldl (fun a d => a * 10 + d) 0

def isLeapYear (y : Nat) : Bool := (y % 4 = 0 && y % 100 ≠ 0) || y % 400 = 0

def daysInMonth (y mo : Nat) : Nat :=
  if mo = 2 then (if isLeapYear y then 29 else 28)
  else if mo = 4 || mo = 6 || mo = 9 || mo = 11 then 30
  else 31

/-- strptime with the source's fixed format, on the colon-normalized
string; returns none where the source stores None after ValueError. -/
def parseTimeString (s0 : List Char) : Option DateTime :=
  let s := s0.map fun c => if c = '：' then ':' else c
  let y := takeDigits 4 s
  if y.1.length = 4 then
    match y.2 with
    | '年' :: r2 =>
      let mo := takeDigits 2 r2
      if 0 < mo.1.length then
        match mo.2 with
        | '月' :: r4 =>
          let d := takeDigits 2 r4
          if 0 < d.1.length then
            match d.2 with
            | '日' :: r6 =>
              let h := takeDigits 2 r6
              if 0 < h.1.length then
                match h.2 with
                | ':' :: r8 =>
                  let mi := takeDigits 2 r8
                  if 0 < mi.1.length && decide (mi.2 = []) then
                    let yv := digitsVal y.1
                    let mov := digitsVal mo.1
                    let dv := digitsVal d.1
                    let hv := digitsVal h.1
                    let miv := digitsVal mi.1
                    if 1 ≤ yv && 1 ≤ mov && mov ≤ 12 && 1 ≤ dv &&
                        dv ≤ daysInMonth yv mov && hv ≤ 23 && miv ≤ 59 then
                      some ⟨yv, mov, dv, hv, miv⟩
                    else none
                  else none
                | _ => none
              else none
            | _ => none
          else none
        | _ => none
      else none
    | _ => none
  else none

/-! ## Category inference (app.py lines 77-88) -/

def chargeKeyword : List Char := ['充', '电']
def obstacleKeyword : List Char := ['避', '障']
def localizationKeyword : List Char := ['定', '位']
def taskKeyword : List Char := ['任', '务']

def chargeCategory : List Char := ['充', '电', '失', '败']
def obstacleCategory : List Char := ['避', '障', '异', '常']
def localizationCategory : List Char := ['定', '位', '丢', '失']
def taskCategory : List Char := ['任', '务', '执', '行', '失', '败']
def otherCategory : List Char := ['其', '他']

/-- The if-elif chain deriving the category from the description. -/
def inferCategory (desc : List Char) : List Char :=
  if containsSub chargeKeyword desc then chargeCategory
  else if containsSub obstacleKeyword desc then obstacleCategory
  else if containsSub localizationKeyword desc then localizationCategory
  else if containsSub taskKeyword desc then taskCategory
  else otherCategory

/-! ## The report parser (parse_fault_text, app.py lines 43-90) -/

structure ParsedFault where
  reporter_name : List Char
  vehicle_id : List Char
  description : List Char
  solution : List Char
  responsible_person : List Char
  fault_time : Option DateTime
  category : List Char
deriving DecidableEq, Repr

def parse_fault_text (raw : List Char) : ParsedFault :=
  let desc := pyStrip (fieldOf raw descriptionLabel)
  { reporter_name := pyStrip (fieldOf raw reporterLabel)
    vehicle_id := pyStrip (fieldOf raw vehicleLabel)
    description := desc
    solution := pyStrip (fieldOf raw solutionLabel)
    responsible_person := sanitizeResponsible (pyStrip (fieldOf raw responsibleLabel))
    fault_time := parseTimeString (pyStrip (fieldOf raw timeLabel))
    category := inferCategory desc }

/-! ## The free-text ingestion route (parse_fault, app.py lines 212-243) -/

inductive ParseOutcome where
  | incompleteParse
  | success
deriving DecidableEq, Repr

structure FaultRecord where
  reporter_name : List Char
  fault_time : DateTime
  vehicle_id : List Char
  category : List Char
  description : List Char
  solution : List Char
  responsible_person : List Char
deriving DecidableEq, Repr

/-- The truthiness test over the five required fields, in source order:
all of parsed_data.get for reporter_name, fault_time, vehicle_id,
description, responsible_person.  Empty strings and None are falsy. -/
def requiredPresent (d : ParsedFault) : Bool :=
  !d.reporter_name.isEmpty && d.fault_time.isSome && !d.vehicle_id.isEmpty &&
    !d.description.isEmpty && !d.responsible_person.isEmpty

/-- The parse route: on an incomplete parse it flashes an error and
redirects without touching the store; otherwise it inserts one row. -/
def parse_fault (raw : List Char) (store : List FaultRecord) :
    List FaultRecord × ParseOutcome :=
  let d := parse_fault_text raw
  match d.fault_time, requiredPresent d with
  | some t, true =>
    (store ++ [{ reporter_name := d.reporter_name, fault_time := t,
                 vehicle_id := d.vehicle_id, category := d.category,
                 description := d.description, solution := d.solution,
                 responsible_person := d.responsible_person }],
     ParseOutcome.success)
  | _, _ => (store, ParseOutcome.incompleteParse)

/-! ## Search, filtering and the two list-view queries (index, app.py 132-191) -/

structure FaultRow where
  id : Nat
  reporter_name : List Char
  responsible_person : List Char
  vehicle_id : List Char
  status : List Char
  fault_time : Int
deriving DecidableEq, Repr

/-- The six optional search inputs.  The four text fields are the
already-stripped request strings, the empty list meaning the parameter
was absent or blank.  The two date fields are the instants obtained by
strptime on the supplied dates at midnight; none means the parameter was
absent or blank. -/
structure SearchParams where
  search_reporter : List Char
  search_responsible : List Char
  search_vehicle : List Char
  search_status : List Char
  search_start_date : Option Int
  search_end_date : Option Int
deriving DecidableEq, Repr

/-- ASCII case folding, as SQLite LIKE applies to ASCII letters. -/
def likeFoldChar (c : Char) : Char :=
  if 'A' ≤ c && c ≤ 'Z' then Char.ofNat (c.toNat + 32) else c

/-- The LIKE predicate with percent wildcards on both sides of the bound
parameter: case-insensitive (ASCII) substring containment. -/
def likeContains (needle hay : List Char) : Bool :=
  containsSub (needle.map likeFoldChar) (hay.map likeFoldChar)

/-- The number of seconds from midnight to 23:59:59 of the same day:
the replace call on the parsed end date. -/
def endOfDayOffset : Int := 86399

/-- The ordered predicate list the route builds: the constant true
clause, then one predicate per supplied criterion, in source order.
Both the count query and the page query run exactly this list. -/
def startDatePred (o : Option Int) : List (FaultRow → Bool) :=
  match o with
  | some t => [fun r => decide (t ≤ r.fault_time)]
  | none => []

def endDatePred (o : Option Int) : List (FaultRow → Bool) :=
  match o with
  | some t => [fun r => decide (r.fault_time ≤ t + endOfDayOffset)]
  | none => []

def wherePreds (p : SearchParams) : List (FaultRow → Bool) :=
  [fun _ => true] ++
    (if p.search_reporter.isEmpty then []
      else [fun r => likeContains p.search_reporter r.reporter_name]) ++
    (if p.search_responsible.isEmpty then []
      else [fun r => likeContains p.search_responsible r.responsible_person]) ++
    (if p.search_vehicle.isEmpty then []
      else [fun r => likeContains p.search_vehicle r.vehicle_id]) ++
    (if p.search_status.isEmpty then []
      else [fun r => decide (r.status = p.search_status)]) ++
    startDatePred p.search_start_date ++ endDatePred p.search_end_date

/-- Conjunction of the predicate list: the WHERE clause. -/
def evalWhere (p : SearchParams) (r : FaultRow) : Bool :=
  (wherePreds p).all fun q => q r

/-- SELECT COUNT of id over the shared WHERE clause; ids are never null,
so the count is the number of matching rows. -/
def totalCountOf (p : SearchParams) (store : List FaultRow) : Nat :=
  (store.filter (evalWhere p)).length

/-- ORDER BY fault_time DESC comparison. -/
def timeDescLe (a b : FaultRow) : Bool := b.fault_time ≤ a.fault_time

/-- The page query with no LIMIT or OFFSET applied: the same WHERE
clause, ordered by fault time descending. -/
def fetchAllRows (p : SearchParams) (store : List FaultRow) : List FaultRow :=
  (store.filter (evalWhere p)).mergeSort timeDescLe

/-! ## Pagination (index, app.py lines 159-181) -/

/-- The page-size allow-list of the route. -/
def allowed_per_page : List Int := [4, 5, 10]

/-- Validation of the requested page size: any value outside the
allow-list is forced to the default 5. -/
def resolvePerPage (raw : Int) : Int :=
  if raw ∈ allowed_per_page then raw else 5

/-- math.ceil of totalCount divided by perPage.  The source computes the
exact ceiling of the rational quotient; for the positive page sizes the
route produces, that ceiling equals this integer expression. -/
def totalPagesOf (totalCount : Nat) (perPage : Int) : Int :=
  ((totalCount : Int) + perPage - 1) / perPage

/-- The range guard of the route: clamp the page to totalPages only when
the request exceeds it and totalPages is positive. -/
def clampPage (page totalPages : Int) : Int :=
  if totalPages < page ∧ 0 < totalPages then totalPages else page

/-- offset is computed from the effective page. -/
def offsetOf (page perPage : Int) : Int := (page - 1) * perPage

/-! ## Aggregation resolver (statistics, app.py lines 262-303) -/

/-- The grouping-dimension whitelist of the statistics route. -/
def allowed_group_by_columns : List String :=
  ["category", "status", "vehicle_id", "reporter_name",
    "responsible_person", "by_date"]

/-- Dimension validation: values outside the whitelist reset to the
default and raise the flashed advisory (the Boolean component). -/
def resolveGroupBy (g : String) : String × Bool :=
  if g ∈ allowed_group_by_columns then (g, false) else ("category", true)

/-- The query fragment chosen for a validated dimension: the derived
calendar-day expression for by_date, the column name itself otherwise. -/
def groupByClauseOf (g : String) : String :=
  if g = "by_date" then "DATE(fault_time)" else g

/-- The fragment that actually reaches the statistics query text for a
raw requested dimension. -/
def statisticsClause (g : String) : String :=
  groupByClauseOf (resolveGroupBy g).1

/-- Hand-built fragment table for the six dimensions of the closed set,
written out dimension by dimension, for comparison with the resolver. -/
def handBuiltFragment (g : String) : String :=
  if g = "category" then "category"
  else if g = "status" then "status"
  else if g = "vehicle_id" then "vehicle_id"
  else if g = "reporter_name" then "reporter_name"
  else if g = "responsible_person" then "responsible_person"
  else if g = "by_date" then "DATE(fault_time)"
  else "category"

/-! ## Auxiliary Boolean helpers on list heads -/

/-- True when the list is empty or its first character is not whitespace. -/
def headNotSpace (l : List Char) : Bool := !(l.head?.any isPySpace)

/-! ## Small list lemmas -/

theorem takeWhile_all {α : Type} (p : α → Bool) (l : List α)
    (h : l.all p = true) : l.takeWhile p = l := by
  induction l with
  | nil => rfl
  | cons a t ih =>
    simp only [List.all_cons, Bool.and_eq_true] at h
    simp [List.takeWhile_cons, h.1, ih h.2]

theorem dropWhile_all {α : Type} (p : α → Bool) (l : List α)
    (h : l.all p = true) : l.dropWhile p = [] := by
  induction l with
  | nil => rfl
  | cons a t ih =>
    simp only [List.all_cons, Bool.and_eq_true] at h
    simp [List.dropWhile_cons, h.1, ih h.2]

theorem dropWhile_append_all {α : Type} (p : α → Bool) (l₁ l₂ : List α)
    (h : l₁.all p = true) : (l₁ ++ l₂).dropWhile p = l₂.dropWhile p := by
  induction l₁ with
  | nil => rfl
  | cons a t ih =>
    simp only [List.all_cons, Bool.and_eq_true] at h
    simp [List.dropWhile_cons, h.1, ih h.2]

theorem dropWhile_head_neg {α : Type} (p : α → Bool) (l : List α)
    (h : ∀ a, l.head? = some a → p a = false) : l.dropWhile p = l := by
  cases l with
  | nil => rfl
  | cons a t =>
    have := h a rfl
    simp [List.dropWhile_cons, this]

theorem head?_dropWhile_false {α : Type} (p : α → Bool) (l : List α) {c : α}
    (h : (l.dropWhile p).head? = some c) : p c = false := by
  induction l with
  | nil => simp [List.dropWhile] at h
  | cons a t ih =>
    by_cases ha : p a
    · rw [List.dropWhile_cons_of_pos ha] at h
      exact ih h
    · rw [List.dropWhile_cons_of_neg ha] at h
      simp only [List.head?_cons, Option.some.injEq] at h
      subst h
      simpa using ha

theorem getLast?_of_suffix {α : Type} {l₁ l₂ : List α}
    (h : l₁ <:+ l₂) (hne : l₁ ≠ []) : l₁.getLast? = l₂.getLast? := by
  obtain ⟨t, rfl⟩ := h
  rw [List.getLast?_append]
  cases hl : l₁.getLast? with
  | none => exact absurd (List.getLast?_eq_none_iff.mp hl) hne
  | some a => rfl

/-! ## Claim C1: aggregation-dimension whitelist -/

/-- C1: the aggregation resolver maps any dimension outside the closed
set to the default category dimension together with a user-visible
advisory, maps every dimension of the set to the fixed query fragment
hand-built for that exact dimension, and the fragment reaching the query
text always lies in the fixed six-element fragment set, never containing
the raw request string for out-of-set inputs. -/
theorem C1_aggregation_whitelist (g : String) :
    (g ∉ allowed_group_by_columns → resolveGroupBy g = ("category", true)) ∧
    (g ∈ allowed_group_by_columns →
      resolveGroupBy g = (g, false) ∧ statisticsClause g = handBuiltFragment g) ∧
    statisticsClause g ∈ ["category", "status", "vehicle_id", "reporter_name",
      "responsible_person", "DATE(fault_time)"] := by
  by_cases h : g ∈ allowed_group_by_columns
  · simp only [allowed_group_by_columns, List.mem_cons, List.not_mem_nil,
      or_false] at h
    rcases h with rfl | rfl | rfl | rfl | rfl | rfl <;> refine ⟨?_, ?_, ?_⟩ <;>
      decide
  · have h1 : resolveGroupBy g = ("category", true) := by
      simp [resolveGroupBy, h]
    have h2 : statisticsClause g = "category" := by
      rw [statisticsClause, h1]
      decide
    exact ⟨fun _ => h1, fun hm => absurd hm h, by rw [h2]; decide⟩

/-- C1 witness: the dimension dropTable is outside the whitelist and
resolves to the default with the advisory raised. -/
theorem C1_witness : resolveGroupBy "dropTable" = ("category", true) :=
  (C1_aggregation_whitelist "dropTable").1 (by decide)

/-! ## Claim C6: category inference priority -/

/-- C6: category inference assigns exactly one category by the fixed
priority chain charging, obstacle avoidance, localization, task, other;
in particular a description holding both a charging and a task keyword
resolves to the charging-failure category. -/
theorem C6_category_priority (d : List Char) :
    (containsSub chargeKeyword d = true → inferCategory d = chargeCategory) ∧
    (containsSub chargeKeyword d = false → containsSub obstacleKeyword d = true →
      inferCategory d = obstacleCategory) ∧
    (containsSub chargeKeyword d = false → containsSub obstacleKeyword d = false →
      containsSub localizationKeyword d = true →
      inferCategory d = localizationCategory) ∧
    (containsSub chargeKeyword d = false → containsSub obstacleKeyword d = false →
      containsSub localizationKeyword d = false →
      containsSub taskKeyword d = true → inferCategory d = taskCategory) ∧
    (containsSub chargeKeyword d = false → containsSub obstacleKeyword d = false →
      containsSub localizationKeyword d = false →
      containsSub taskKeyword d = false → inferCategory d = otherCategory) ∧
    inferCategory d ∈ [chargeCategory, obstacleCategory, localizationCategory,
      taskCategory, otherCategory] := by
  unfold inferCategory
  cases h1 : containsSub chargeKeyword d <;>
    cases h2 : containsSub obstacleKeyword d <;>
      cases h3 : containsSub localizationKeyword d <;>
        cases h4 : containsSub taskKeyword d <;>
          simp [h1, h2, h3, h4]

/-- C6 witness: a description holding both the charging keyword and the
task keyword is assigned the charging-failure category. -/
theorem C6_witness :
    containsSub chargeKeyword ['充', '电', '任', '务'] = true ∧
    containsSub taskKeyword ['充', '电', '任', '务'] = true ∧
    inferCategory ['充', '电', '任', '务'] = chargeCategory :=
  ⟨by decide, by decide, (C6_category_priority ['充', '电', '任', '务']).1 (by decide)⟩

/-! ## Claim C8: count query and page query consistency -/

/-- C8: both list-view queries run the same ordered predicate list, so
the row count driving pagination equals the number of rows the
unpaginated page query returns over any store contents. -/
theorem C8_filter_count_consistency (p : SearchParams) (store : List FaultRow) :
    totalCountOf p store = (fetchAllRows p store).length := by
  unfold totalCountOf fetchAllRows
  exact ((store.filter (evalWhere p)).mergeSort_perm timeDescLe).length_eq.symm

/-! ## Claim C4: pagination resolution -/

/-- C4 counterexample: with an empty result set and requested page 2,
the route leaves the effective page at 2, outside the interval from 1 to
the maximum of totalPages and 1 claimed by the specification. -/
theorem C4_counterexample :
    clampPage 2 (totalPagesOf 0 5) = 2 ∧
      ¬clampPage 2 (totalPagesOf 0 5) ≤ max (totalPagesOf 0 5) 1 := by decide

/-- C4 amended: totalPages is the exact ceiling of totalCount over
pageSize and is 0 for an empty count; pages beyond a positive totalPages
clamp to totalPages; when totalPages is positive the effective page lies
between 1 and totalPages and its window starts before totalCount; when
totalPages is 0 the effective page equals the requested page unchanged;
the offset is the effective page minus one times the page size and is
never negative for positive requested pages. -/
theorem C4_pagination (tc : Nat) (pp page : Int)
    (hpp : pp ∈ allowed_per_page) (hpage : 1 ≤ page) :
    0 ≤ totalPagesOf tc pp ∧
    (tc : Int) ≤ totalPagesOf tc pp * pp ∧
    (∀ k : Int, 0 ≤ k → (tc : Int) ≤ k * pp → totalPagesOf tc pp ≤ k) ∧
    (tc = 0 → totalPagesOf tc pp = 0) ∧
    (totalPagesOf tc pp < page ∧ 0 < totalPagesOf tc pp →
      clampPage page (totalPagesOf tc pp) = totalPagesOf tc pp) ∧
    1 ≤ clampPage page (totalPagesOf tc pp) ∧
    (0 < totalPagesOf tc pp →
      clampPage page (totalPagesOf tc pp) ≤ totalPagesOf tc pp ∧
        clampPage page (totalPagesOf tc pp) * pp - pp < (tc : Int)) ∧
    (totalPagesOf tc pp = 0 → clampPage page (totalPagesOf tc pp) = page) ∧
    offsetOf (clampPage page (totalPagesOf tc pp)) pp =
      (clampPage page (totalPagesOf tc pp) - 1) * pp ∧
    0 ≤ offsetOf (clampPage page (totalPagesOf tc pp)) pp := by
  have hpp3 : pp = 4 ∨ pp = 5 ∨ pp = 10 := by
    simpa [allowed_per_page] using hpp
  rcases hpp3 with rfl | rfl | rfl <;>
  · simp only [totalPagesOf, clampPage, offsetOf]
    refine ⟨by omega, by omega, fun k hk hkle => by omega, by omega,
      fun h => by rw [if_pos h], by split <;> omega,
      fun h => by split <;> omega,
      fun h => by rw [if_neg (by omega)], by trivial, by split <;> omega⟩

/-- C4 witness: requesting page 99 of a three-row result at page size 5
clamps the effective page to totalPages. -/
theorem C4_witness :
    clampPage 99 (totalPagesOf 3 5) = totalPagesOf 3 5 :=
  (C4_pagination 3 5 99 (by decide) (by decide)).2.2.2.2.1 (by decide)

/-! ## Claim C10: no lower bound on the requested page -/

/-- C10: the route never clamps a page below 1: any requested page less
than 1 passes through unchanged, and its offset, the page minus one
times the page size, is negative and is what reaches the OFFSET
parameter of the page query. -/
theorem C10_no_lower_bound (tc : Nat) (pp page : Int)
    (hpp : pp ∈ allowed_per_page) (hpage : page < 1) :
    clampPage page (totalPagesOf tc pp) = page ∧
    offsetOf page pp = (page - 1) * pp ∧
    offsetOf page pp < 0 := by
  have hpp3 : pp = 4 ∨ pp = 5 ∨ pp = 10 := by
    simpa [allowed_per_page] using hpp
  rcases hpp3 with rfl | rfl | rfl <;>
  · refine ⟨?_, rfl, ?_⟩
    · simp only [totalPagesOf, clampPage]
      rw [if_neg (by omega)]
    · simp only [offsetOf]
      omega

/-- C10 witness: page 0 of a three-row result at page size 5 stays page
0 with offset minus five. -/
theorem C10_witness :
    clampPage 0 (totalPagesOf 3 5) = 0 ∧
    offsetOf 0 5 = (0 - 1) * 5 ∧
    offsetOf 0 5 < 0 :=
  C10_no_lower_bound 3 5 0 (by decide) (by decide)

/-! ## Sanitization lemmas for claims C3 and C7 -/

theorem mem_cleanSub_allowed (s : List Char) :
    ∀ c ∈ cleanSub s, allowedChar c = true := by
  have key : ∀ n (s : List Char), s.length ≤ n →
      ∀ c ∈ cleanSub s, allowedChar c = true := by
    intro n
    induction n with
    | zero =>
      intro s hs c hc
      have : s = [] := List.length_eq_zero.mp (Nat.le_zero.mp hs)
      subst this
      simp [cleanSub_nil] at hc
    | succ n ih =>
      intro s hs c hc
      cases s with
      | nil => simp [cleanSub_nil] at hc
      | cons a t =>
        rw [cleanSub_cons] at hc
        simp only [List.length_cons] at hs
        by_cases ha : allowedChar a
        · rw [if_pos ha] at hc
          rcases List.mem_cons.mp hc with rfl | hc'
          · exact ha
          · exact ih t (by omega) c hc'
        · rw [if_neg ha] at hc
          rcases List.mem_cons.mp hc with rfl | hc'
          · decide
          · refine ih (t.dropWhile fun d => !allowedChar d) ?_ c hc'
            have := length_dropWhile_le (fun d => !allowedChar d) t
            omega
  exact key (s.length) s le_rfl

theorem cleanSub_eq_self (s : List Char)
    (h : ∀ c ∈ s, allowedChar c = true) : cleanSub s = s := by
  induction s with
  | nil => exact cleanSub_nil
  | cons a t ih =>
    rw [cleanSub_cons, if_pos (h a (List.mem_cons_self a t))]
    exact congrArg (a :: ·) (ih fun c hc => h c (List.mem_cons_of_mem a hc))

theorem mem_pyStrip_subset (s : List Char) : ∀ c ∈ pyStrip s, c ∈ s := by
  intro c hc
  unfold pyStrip at hc
  rw [List.mem_reverse] at hc
  have h1 := (List.dropWhile_sublist (l := (s.dropWhile isPySpace).reverse)
    (p := isPySpace)).mem hc
  rw [List.mem_reverse] at h1
  exact (List.dropWhile_sublist (l := s) (p := isPySpace)).mem h1

theorem head?_pyStrip_not_space (s : List Char) {c : Char}
    (h : (pyStrip s).head? = some c) : isPySpace c = false := by
  unfold pyStrip at h
  set X := s.dropWhile isPySpace with hX
  set Z := X.reverse.dropWhile isPySpace with hZ
  rw [List.head?_reverse] at h
  have hZne : Z ≠ [] := by
    intro hnil
    rw [hnil] at h
    simp at h
  have hsuffix : Z <:+ X.reverse := List.dropWhile_suffix isPySpace
  have hlast : Z.getLast? = X.reverse.getLast? := getLast?_of_suffix hsuffix hZne
  rw [hlast] at h
  have hXrev : X.reverse.getLast? = X.head? := by
    rw [← List.head?_reverse, List.reverse_reverse]
  rw [hXrev] at h
  exact head?_dropWhile_false isPySpace s h

theorem getLast?_pyStrip_not_space (s : List Char) {c : Char}
    (h : (pyStrip s).getLast? = some c) : isPySpace c = false := by
  unfold pyStrip at h
  rw [← List.head?_reverse, List.reverse_reverse] at h
  exact head?_dropWhile_false isPySpace _ h

theorem pyStrip_eq_self (l : List Char)
    (hh : ∀ c, l.head? = some c → isPySpace c = false)
    (hl : ∀ c, l.getLast? = some c → isPySpace c = false) : pyStrip l = l := by
  unfold pyStrip
  have h1 : l.dropWhile isPySpace = l :=
    dropWhile_head_neg isPySpace l hh
  rw [h1]
  have h2 : l.reverse.dropWhile isPySpace = l.reverse := by
    refine dropWhile_head_neg isPySpace l.reverse fun a ha => ?_
    rw [List.head?_reverse] at ha
    exact hl a ha
  rw [h2, List.reverse_reverse]

/-! ## Claim C7: sanitization invariants and conditional idempotence -/

/-- C7 counterexample: sanitization is not idempotent; stripping the
leading at-sign can expose leading whitespace that a second application
then removes. -/
theorem C7_counterexample :
    sanitizeResponsible (sanitizeResponsible ['@', ' ', 'a']) ≠
      sanitizeResponsible ['@', ' ', 'a'] := by decide

/-- C7 amended: every character of the sanitized output is in the
allowed classes and the output never begins with an at-sign; applying
sanitization twice equals applying it once for every input whose
single-pass output does not begin with whitespace (the counterexample
shows idempotence fails when it does). -/
theorem C7_sanitize_invariants (s : List Char) :
    (∀ c ∈ sanitizeResponsible s, allowedChar c = true) ∧
    (∀ c, (sanitizeResponsible s).head? = some c → ¬c = '@') ∧
    (headNotSpace (sanitizeResponsible s) = true →
      sanitizeResponsible (sanitizeResponsible s) = sanitizeResponsible s) := by
  refine ⟨?_, ?_, ?_⟩
  · intro c hc
    unfold sanitizeResponsible dropLeadingAts at hc
    have h1 := (List.dropWhile_sublist (l := pyStrip (cleanSub s))
      (p := fun c => decide (c = '@'))).mem hc
    exact mem_cleanSub_allowed s c (mem_pyStrip_subset (cleanSub s) c h1)
  · intro c hc
    unfold sanitizeResponsible dropLeadingAts at hc
    have := head?_dropWhile_false (fun c => decide (c = '@')) _ hc
    simpa using this
  · intro hns
    have hall : ∀ c ∈ sanitizeResponsible s, allowedChar c = true := by
      intro c hc
      unfold sanitizeResponsible dropLeadingAts at hc
      have h1 := (List.dropWhile_sublist (l := pyStrip (cleanSub s))
        (p := fun c => decide (c = '@'))).mem hc
      exact mem_cleanSub_allowed s c (mem_pyStrip_subset (cleanSub s) c h1)
    have hhead : ∀ c, (sanitizeResponsible s).head? = some c →
        isPySpace c = false := by
      intro c hc
      rw [headNotSpace, hc] at hns
      simpa using hns
    have hheadAt : ∀ c, (sanitizeResponsible s).head? = some c → ¬c = '@' := by
      intro c hc
      unfold sanitizeResponsible dropLeadingAts at hc
      have := head?_dropWhile_false (fun c => decide (c = '@')) _ hc
      simpa using this
    have hlast : ∀ c, (sanitizeResponsible s).getLast? = some c →
        isPySpace c = false := by
      intro c hc
      have hyne : sanitizeResponsible s ≠ [] := by
        intro hnil
        rw [hnil] at hc
        simp at hc
      have hsuffix : sanitizeResponsible s <:+ pyStrip (cleanSub s) :=
        List.dropWhile_suffix _
      rw [getLast?_of_suffix hsuffix hyne] at hc
      exact getLast?_pyStrip_not_space (cleanSub s) hc
    have step1 : cleanSub (sanitizeResponsible s) = sanitizeResponsible s :=
      cleanSub_eq_self _ hall
    have step2 : pyStrip (sanitizeResponsible s) = sanitizeResponsible s :=
      pyStrip_eq_self _ hhead hlast
    have step3 : dropLeadingAts (sanitizeResponsible s) = sanitizeResponsible s := by
      cases hy' : sanitizeResponsible s with
      | nil => rfl
      | cons a t =>
        have ha := hheadAt a (by rw [hy']; rfl)
        unfold dropLeadingAts
        rw [List.dropWhile_cons_of_neg (by simpa using ha)]
    calc sanitizeResponsible (sanitizeResponsible s)
        = dropLeadingAts (pyStrip (cleanSub (sanitizeResponsible s))) := rfl
      _ = sanitizeResponsible s := by rw [step1, step2, step3]

/-- C7 witness: on an input whose sanitized form starts with a letter,
the second application changes nothing. -/
theorem C7_witness :
    sanitizeResponsible (sanitizeResponsible ['a', '!', 'b']) =
      sanitizeResponsible ['a', '!', 'b'] :=
  (C7_sanitize_invariants ['a', '!', 'b']).2.2 (by decide)

/-! ## Claim C3: the sanitization algorithm -/

/-- Spec-side formulation of the run replacement as a two-state scanner:
the flag records whether the previous character belonged to a disallowed
run, so each maximal run emits exactly one space. -/
def specCleanAux : Bool → List Char → List Char
  | _, [] => []
  | prevBad, c :: cs =>
    if allowedChar c then c :: specCleanAux false cs
    else if prevBad then specCleanAux true cs
    else ' ' :: specCleanAux true cs

theorem specCleanAux_eq (s : List Char) :
    specCleanAux false s = cleanSub s ∧
      specCleanAux true s = cleanSub (s.dropWhile fun d => !allowedChar d) := by
  induction s with
  | nil => exact ⟨cleanSub_nil.symm, cleanSub_nil.symm⟩
  | cons a t ih =>
    by_cases ha : allowedChar a
    · constructor
      · rw [specCleanAux, if_pos ha, cleanSub_cons, if_pos ha, ih.1]
      · rw [specCleanAux, if_pos ha,
          List.dropWhile_cons_of_neg (by simpa using ha),
          cleanSub_cons, if_pos ha, ih.1]
    · constructor
      · rw [specCleanAux, if_neg ha, if_neg (by simp), cleanSub_cons,
          if_neg ha, ih.2]
      · rw [specCleanAux, if_neg ha, if_pos rfl,
          List.dropWhile_cons_of_pos (by simpa using ha), ih.2]

/-- The sanitization the claim describes, with exactly one leading
at-sign stripped rather than every leading at-sign. -/
def dropOneAt : List Char → List Char
  | '@' :: t => t
  | t => t

def specSanitizeOnce (s : List Char) : List Char := dropOneAt (pyStrip (cleanSub s))

/-- C3 counterexample: on the input of two at-signs and a letter the
code strips both leading at-signs, while the claim says exactly one is
stripped and the output still starts with an at-sign. -/
theorem C3_counterexample :
    sanitizeResponsible ['@', '@', 'a'] = ['a'] ∧
      specSanitizeOnce ['@', '@', 'a'] = ['@', 'a'] ∧
      sanitizeResponsible ['@', '@', 'a'] ≠ specSanitizeOnce ['@', '@', 'a'] := by
  decide

/-- C3 amended: the sanitizer replaces every maximal run of disallowed
characters with a single space (stated through the independent two-state
scanner formulation), trims surrounding whitespace, and then strips all
leading at-signs, not just one. -/
theorem C3_sanitize_algorithm (s : List Char) :
    sanitizeResponsible s = dropLeadingAts (pyStrip (specCleanAux false s)) := by
  rw [(specCleanAux_eq s).1]
  rfl

/-! ## Dict lemmas for claim C2 -/

theorem find?_map_upd (m : List (List Char × List Char)) (k v : List Char)
    (hany : (m.any fun p => decide (p.1 = k)) = true) :
    (m.map fun p => if p.1 = k then (k, v) else p).find?
      (fun p => decide (p.1 = k)) = some (k, v) := by
  induction m with
  | nil => simp at hany
  | cons p t ih =>
    by_cases hp : p.1 = k
    · simp only [List.map_cons, if_pos hp]
      exact List.find?_cons_of_pos _ (by simp)
    · have hany' : (t.any fun p => decide (p.1 = k)) = true := by
        simpa [List.any_cons, hp] using hany
      simp only [List.map_cons, if_neg hp]
      rw [List.find?_cons_of_neg _ (by simpa using hp)]
      exact ih hany'

theorem find?_append_upd (m : List (List Char × List Char)) (k v : List Char)
    (hany : (m.any fun p => decide (p.1 = k)) = false) :
    (m ++ [(k, v)]).find? (fun p => decide (p.1 = k)) = some (k, v) := by
  induction m with
  | nil => exact List.find?_cons_of_pos _ (by simp)
  | cons p t ih =>
    simp only [List.any_cons, Bool.or_eq_false_iff] at hany
    rw [List.cons_append, List.find?_cons_of_neg _ (by simpa using hany.1)]
    exact ih hany.2

theorem find?_map_upd_other (m : List (List Char × List Char))
    (k v k' : List Char) (h : ¬k' = k) :
    (m.map fun p => if p.1 = k then (k, v) else p).find?
        (fun p => decide (p.1 = k')) =
      m.find? (fun p => decide (p.1 = k')) := by
  induction m with
  | nil => rfl
  | cons p t ih =>
    by_cases hp : p.1 = k
    · simp only [List.map_cons, if_pos hp]
      rw [List.find?_cons_of_neg _
          (by simpa using fun he : k = k' => h he.symm),
        List.find?_cons_of_neg _
          (by simpa using fun he : p.1 = k' => h (he.symm.trans hp))]
      exact ih
    · simp only [List.map_cons, if_neg hp]
      by_cases hp' : p.1 = k'
      · rw [List.find?_cons_of_pos _ (by simpa using hp'),
          List.find?_cons_of_pos _ (by simpa using hp')]
      · rw [List.find?_cons_of_neg _ (by simpa using hp'),
          List.find?_cons_of_neg _ (by simpa using hp')]
        exact ih

theorem find?_append_other (m : List (List Char × List Char))
    (k v k' : List Char) (h : ¬k' = k) :
    (m ++ [(k, v)]).find? (fun p => decide (p.1 = k')) =
      m.find? (fun p => decide (p.1 = k')) := by
  induction m with
  | nil =>
    simp only [List.nil_append]
    rw [List.find?_cons_of_neg _ (by simpa using fun he : k = k' => h he.symm)]
  | cons p t ih =>
    by_cases hp : p.1 = k'
    · rw [List.cons_append, List.find?_cons_of_pos _ (by simpa using hp),
        List.find?_cons_of_pos _ (by simpa using hp)]
    · rw [List.cons_append, List.find?_cons_of_neg _ (by simpa using hp),
        List.find?_cons_of_neg _ (by simpa using hp)]
      exact ih

theorem dictGet_dictInsert_self (m : List (List Char × List Char))
    (k v : List Char) : dictGet (dictInsert m k v) k = some v := by
  unfold dictGet dictInsert
  by_cases hany : (m.any fun p => decide (p.1 = k)) = true
  · rw [if_pos hany, find?_map_upd m k v hany]
    rfl
  · rw [if_neg hany, find?_append_upd m k v (Bool.eq_false_iff.mpr hany)]
    rfl

theorem dictGet_dictInsert_other (m : List (List Char × List Char))
    (k v k' : List Char) (h : ¬k' = k) :
    dictGet (dictInsert m k v) k' = dictGet m k' := by
  unfold dictGet dictInsert
  by_cases hany : (m.any fun p => decide (p.1 = k)) = true
  · rw [if_pos hany, find?_map_upd_other m k v k' h]
  · rw [if_neg hany, find?_append_other m k v k' h]

theorem dictOf_getLast (ps : List (List Char × List Char)) (k : List Char) :
    dictGet (dictOf ps) k =
      ((ps.filter fun p => decide (p.1 = k)).getLast?).map Prod.snd := by
  induction ps using List.reverseRecOn with
  | nil => rfl
  | append_singleton ps q ih =>
    have hfold : dictOf (ps ++ [q]) = dictInsert (dictOf ps) q.1 q.2 := by
      unfold dictOf
      rw [List.foldl_append]
      rfl
    rw [hfold]
    by_cases hq : q.1 = k
    · rw [hq, dictGet_dictInsert_self]
      rw [List.filter_append, List.filter_cons, if_pos (by simpa using hq)]
      simp
    · rw [dictGet_dictInsert_other (dictOf ps) q.1 q.2 k
        (fun he => hq he.symm), ih]
      rw [List.filter_append, List.filter_cons, if_neg (by simpa using hq)]
      simp

/-! ## Claim C2: which occurrence of a repeated label wins -/

/-- C2 counterexample: a text with the reporter label on two lines, with
values A then B; the extractor returns B, the value of the second
occurrence, not the first. -/
theorem C2_counterexample :
    extractedField
        ['发', '现', '人', '员', ':', 'A', '\n', '发', '现', '人', '员', ':', 'B']
        reporterLabel = some ['B'] ∧
      (some ['B'] : Option (List Char)) ≠ some ['A'] := by
  constructor
  · decide
  · decide

/-- C2 amended: for every raw text and label, the extractor returns the
value of the last match of that label in the findall match list, because
later entries of the Python dict constructor overwrite earlier ones. -/
theorem C2_last_occurrence_wins (raw lab : List Char) :
    extractedField raw lab =
      (((findallMatches raw).filter fun p => decide (p.1 = lab)).getLast?).map
        Prod.snd :=
  dictOf_getLast (findallMatches raw) lab

/-! ## Scanner lemmas for claim C9 -/

theorem scanAux_nil (fuel : Nat) (b : Bool) : scanAux fuel b [] = [] := by
  cases fuel with
  | zero => rfl
  | succ n => cases b <;> rfl

theorem tryLabel_label (lab : List Char) (hlab : lab ∈ labelStrings) (c : Char)
    (hc : isColonChar c = true) (t : List Char) :
    tryLabel (lab ++ c :: t) = some (lab, t) := by
  have hc2 : c = ':' ∨ c = '：' := by
    simpa [isColonChar, Bool.or_eq_true, decide_eq_true_eq] using hc
  simp only [labelStrings, List.mem_cons, List.not_mem_nil, or_false] at hlab
  rcases hlab with rfl | rfl | rfl | rfl | rfl | rfl <;>
    rcases hc2 with rfl | rfl <;> rfl

theorem findall_single_line (lab : List Char) (hlab : lab ∈ labelStrings)
    (c : Char) (hc : isColonChar c = true) (ws rest : List Char)
    (hws : ws.all isPySpace = true)
    (hhead : headNotSpace rest = true)
    (hnl : (rest.all fun d => !decide (d = '\n')) = true) :
    findallMatches (lab ++ c :: (ws ++ rest)) = [(lab, rest)] := by
  have hrest_head : ∀ a, rest.head? = some a → isPySpace a = false := by
    intro a ha
    rw [headNotSpace, ha] at hhead
    simpa using hhead
  have h1 : (ws ++ rest).dropWhile isPySpace = rest := by
    rw [dropWhile_append_all isPySpace ws rest hws]
    exact dropWhile_head_neg isPySpace rest hrest_head
  have h2 : (rest.takeWhile fun d => !decide (d = '\n')) = rest :=
    takeWhile_all _ rest hnl
  have h3 : (rest.dropWhile fun d => !decide (d = '\n')) = [] :=
    dropWhile_all _ rest hnl
  unfold findallMatches
  simp only [scanAux, tryLabel_label lab hlab c hc (ws ++ rest), if_true,
    h1, h2, h3, scanAux_nil]

/-! ## Claim C9: what the extractor does with surrounding whitespace -/

/-- C9 counterexample: with two spaces between the colon and the value,
the extractor returns the value without those spaces, not the raw
trailing text of the line; the trailing space is kept. -/
theorem C9_counterexample :
    fieldOf ['发', '现', '人', '员', ':', ' ', ' ', 'a', ' '] reporterLabel =
        ['a', ' '] ∧
      (['a', ' '] : List Char) ≠ [' ', ' ', 'a', ' '] := by
  constructor
  · decide
  · decide

/-- C9 amended: on a line made of a recognized label, a colon, a run of
whitespace and a remainder that starts with a non-whitespace character
and holds no newline, the extracted value is exactly the remainder: the
whitespace right after the colon is consumed by the matcher and is not
part of the value, while the remainder, trailing whitespace included, is
preserved verbatim. -/
theorem C9_value_after_colon (lab : List Char) (hlab : lab ∈ labelStrings)
    (c : Char) (hc : isColonChar c = true) (ws rest : List Char)
    (hws : ws.all isPySpace = true)
    (hhead : headNotSpace rest = true)
    (hnl : (rest.all fun d => !decide (d = '\n')) = true) :
    extractedField (lab ++ c :: (ws ++ rest)) lab = some rest := by
  unfold extractedField
  rw [findall_single_line lab hlab c hc ws rest hws hhead hnl]
  show dictGet (dictInsert [] lab rest) lab = some rest
  exact dictGet_dictInsert_self [] lab rest

/-- C9 witness: for the reporter label with one space after the colon
and the value of a letter followed by a trailing space, the extractor
keeps the trailing space and drops the space after the colon. -/
theorem C9_witness :
    extractedField (reporterLabel ++ ':' :: ([' '] ++ ['a', ' ']))
        reporterLabel = some ['a', ' '] :=
  C9_value_after_colon reporterLabel (by decide) ':' (by decide) [' ']
    ['a', ' '] (by decide) (by decide) (by decide)

/-! ## Claim C5: incomplete parse performs no write -/

/-- C5: whenever any of the five required fields is empty or absent
after extraction and normalization, the parse route signals the
incomplete-parse outcome and returns the store unchanged, inserting
nothing. -/
theorem C5_incomplete_no_write (raw : List Char) (store : List FaultRecord)
    (h : (parse_fault_text raw).reporter_name = [] ∨
      (parse_fault_text raw).fault_time = none ∨
      (parse_fault_text raw).vehicle_id = [] ∨
      (parse_fault_text raw).description = [] ∨
      (parse_fault_text raw).responsible_person = []) :
    parse_fault raw store = (store, ParseOutcome.incompleteParse) := by
  unfold parse_fault
  cases hft : (parse_fault_text raw).fault_time with
  | none =>
    cases hrq : requiredPresent (parse_fault_text raw) <;> simp [hft]
  | some t =>
    cases hrq : requiredPresent (parse_fault_text raw) with
    | false => simp [hft, hrq]
    | true =>
      exfalso
      rcases h with h' | h' | h' | h' | h' <;>
        simp [requiredPresent, h', hft] at hrq

/-- C5 witness: a text with no labels parses to all-empty fields, the
route reports the incomplete parse, and an empty store stays empty. -/
theorem C5_witness : parse_fault ['x'] [] = ([], ParseOutcome.incompleteParse) :=
  C5_incomplete_no_write ['x'] [] (Or.inl (by decide))
